import Mathlib

/-
Shallow embedding of the four Redis-backed rate limiting strategies of
`main.go` (fixedWindowAllow, slidingLogAllow, slidingCounterAllow,
tokenBucketScript / tokenBucketAllow).

Modelling conventions:
- Redis-resident state is passed explicitly: the fixed-window counter is an
  `Int` (0 = absent key), the sliding log is a `List Int` of millisecond
  timestamps (the sorted set; member = score), the sliding-counter store is a
  function `Int → Int` from window-start Unix seconds to counter values
  (0 = absent key), and the token bucket is an `Option Bucket` (none = absent
  hash at the key).
- Store operations that can fail are driven by per-operation fault flags.
  Where the Go code checks the returned error, the embedding returns the Go
  function's `(false, err)` result; where the Go code discards the error
  (`_`), the failed operation is a no-op and, for reads, yields the zero
  value, exactly as `rdb.Get(...).Int64()` does on error.
- Go float64 arithmetic is modelled as ℚ; every concrete computation settled
  here is exact in double precision as well.
- Go's `%` on int64 panics on a zero divisor; the one place this can happen
  (slidingCounterAllow with a sub-second window) is modelled with `Option`,
  `none` being the runtime panic.
-/

/-- Result of one Go `Allow` call: the returned `bool`, whether the returned
`error` was non-nil, and the Redis-resident state after the call. -/
structure GoResult (σ : Type) where
  allowed : Bool
  errored : Bool
  store : σ
deriving Repr, DecidableEq

/-- Fault flags for the two Redis operations issued by `fixedWindowAllow`:
`INCR` (error checked by the Go code) and `EXPIRE` (error discarded). -/
structure FWFaults where
  incrFails : Bool
  expireFails : Bool
deriving Repr, DecidableEq

def noFWFaults : FWFaults := ⟨false, false⟩

/-- Embeds `fixedWindowAllow` (main.go:39-52). The counter at key
`fixed:<userID>` is `counter` (0 = absent; `INCR` creates it at 0 and
increments). If `INCR` fails the Go code returns `(false, err)`. The
`Expire` call issued when `count == 1` has its error discarded and affects
neither the decision nor the counter value; TTL expiry itself is outside a
single uninterrupted window and is not modelled. -/
def fixedWindowAllow (f : FWFaults) (limit : Int) (counter : Int) :
    GoResult Int :=
  if f.incrFails then ⟨false, true, counter⟩
  else
    let count := counter + 1
    ⟨decide (count ≤ limit), false, count⟩

/-- Decisions and final counter of a sequence of `fixedWindowAllow` calls
within one uninterrupted window (no TTL expiry between calls). -/
def fixedWindowRun (f : FWFaults) (limit : Int) : Nat → Int → List Bool × Int
  | 0, counter => ([], counter)
  | n + 1, counter =>
    let r := fixedWindowAllow f limit counter
    let rest := fixedWindowRun f limit n r.store
    (r.allowed :: rest.1, rest.2)

/-- Fault flags for the four Redis operations issued by `slidingLogAllow`:
only `ZCard`'s error is checked by the Go code; the errors of
`ZRemRangeByScore`, `ZAdd` and `Expire` are discarded. -/
structure SLFaults where
  zremFails : Bool
  zcardFails : Bool
  zaddFails : Bool
  expireFails : Bool
deriving Repr, DecidableEq

def noSLFaults : SLFaults := ⟨false, false, false, false⟩

/-- Embeds `slidingLogAllow` (main.go:65-85). `log` is the sorted set at key
`log:<userID>` (member = score = millisecond timestamp).
`ZRemRangeByScore key "0" windowStart` removes exactly the members with score
in the inclusive range `[0, now - window]`. `ZAdd` adds member `now` (a
no-op on the set's cardinality if the member is already present). The
`Expire` call refreshing the TTL has its error discarded and no modelled
effect within the claims' horizons. -/
def slidingLogAllow (f : SLFaults) (limit winMs now : Int) (log : List Int) :
    GoResult (List Int) :=
  let windowStart := now - winMs
  let log1 :=
    if f.zremFails then log
    else log.filter (fun s => decide (¬ (0 ≤ s ∧ s ≤ windowStart)))
  if f.zcardFails then ⟨false, true, log1⟩
  else if limit ≤ (log1.length : Int) then ⟨false, false, log1⟩
  else
    let log2 :=
      if f.zaddFails then log1
      else if now ∈ log1 then log1 else log1 ++ [now]
    ⟨true, false, log2⟩

/-- Decisions and final log of a sequence of `slidingLogAllow` calls at the
given timestamps. -/
def slidingLogRun (f : SLFaults) (limit winMs : Int) :
    List Int → List Int → List Bool × List Int
  | [], log => ([], log)
  | t :: ts, log =>
    let r := slidingLogAllow f limit winMs t log
    let rest := slidingLogRun f limit winMs ts r.store
    (r.allowed :: rest.1, rest.2)

/-- Modelled from the spec: the decision sequence that C3's general formula
describes, with a closed window `[t - window, t]`. At each call time `t` the
decision is `(count of prior admitted timestamps within [t-window, t]) <
limit`, and admitted timestamps accumulate. -/
def slidingLogSpecClosed (limit winMs : Int) :
    List Int → List Int → List Bool
  | [], _ => []
  | t :: ts, adm =>
    let ok := decide
      (((adm.filter (fun s => decide (t - winMs ≤ s ∧ s ≤ t))).length : Int)
        < limit)
    ok :: slidingLogSpecClosed limit winMs ts (if ok then adm ++ [t] else adm)

/-- Modelled from the spec (amended): the decision sequence with the window
half-open on the left, `(t - window, t]`, matching the trim's inclusive
removal of scores `≤ now - window`. -/
def slidingLogSpecHalfOpen (limit winMs : Int) :
    List Int → List Int → List Bool
  | [], _ => []
  | t :: ts, adm =>
    let ok := decide
      (((adm.filter (fun s => decide (t - winMs < s ∧ s ≤ t))).length : Int)
        < limit)
    ok ::
      slidingLogSpecHalfOpen limit winMs ts (if ok then adm ++ [t] else adm)

/-- Fault flags for the Redis operations issued by `slidingCounterAllow`.
The Go code discards every one of these errors (`_` for both `GET`s; the
`INCR` and `EXPIRE` results are not even bound): a failed `GET` is read as
the zero value 0, a failed `INCR`/`EXPIRE` is a no-op. -/
structure SCFaults where
  getCurrentFails : Bool
  getPreviousFails : Bool
  incrFails : Bool
  expireFails : Bool
deriving Repr, DecidableEq

def noSCFaults : SCFaults := ⟨false, false, false, false⟩

/-- Seconds between Go's zero time (Jan 1, year 1 UTC) and the Unix epoch.
`Time.Truncate` rounds down to a multiple of the duration since the zero
time, not since the Unix epoch. -/
def unixEpochOffset : Int := 62135596800

/-- Unix seconds of `t.Truncate(window)` for an instant `nowNanos` (Unix
nanoseconds) and a window of `winNanos` nanoseconds: round the absolute
nanosecond count (since the zero time) down to a multiple of `winNanos`,
then floor to whole Unix seconds (`Unix()`). -/
def goTruncateUnix (nowNanos winNanos : Int) : Int :=
  ((nowNanos + unixEpochOffset * 1000000000).fdiv winNanos * winNanos).fdiv
      1000000000
    - unixEpochOffset

/-- Embeds `slidingCounterAllow` (main.go:99-121). `store` maps a counter
key's window-start Unix seconds to its value (0 = absent). `limit` is the
configured limit, `winNanos` the window duration in nanoseconds (Go
`time.Duration`), `nowNanos` the current instant in Unix nanoseconds.
`int64(window.Seconds())` is the float `winNanos / 1e9` truncated toward
zero (exact for the durations considered here); when it is 0 the Go
expression `now.Unix() % int64(window.Seconds())` panics at runtime, which
the embedding returns as `none`. The float arithmetic of
`percentIntoWindow` and `estimatedCount` is modelled exactly in ℚ. -/
def slidingCounterAllow (f : SCFaults) (limit winNanos nowNanos : Int)
    (store : Int → Int) : Option (Bool × (Int → Int)) :=
  let currentWindow := goTruncateUnix nowNanos winNanos
  let previousWindow := goTruncateUnix (nowNanos - winNanos) winNanos
  let currentCount := if f.getCurrentFails then 0 else store currentWindow
  let previousCount := if f.getPreviousFails then 0 else store previousWindow
  let winSecTrunc := winNanos.tdiv 1000000000
  if winSecTrunc = 0 then none
  else
    let nowUnix := nowNanos.fdiv 1000000000
    let percentIntoWindow : ℚ :=
      (nowUnix.tmod winSecTrunc : ℚ) / ((winNanos : ℚ) / 1000000000)
    let estimatedCount : ℚ :=
      (previousCount : ℚ) * (1 - percentIntoWindow) + (currentCount : ℚ)
    if (limit : ℚ) ≤ estimatedCount then some (false, store)
    else
      let store' :=
        if f.incrFails then store
        else fun k => if k = currentWindow then store k + 1 else store k
      some (true, store')

/-- Token-bucket record stored in the Redis hash at key `bucket:<userID>`:
fields `tokens` and `last` (Unix seconds). -/
structure Bucket where
  tokens : ℚ
  last : ℚ
deriving Repr, DecidableEq

/-- Embeds the Lua `tokenBucketScript` (main.go:138-159), which Redis runs
atomically. `st = none` models an absent key (both `HGET`s return nil, so
`tokens` defaults to `capacity` and `last` to `now`). Returns the script's
integer result (1 = allowed, 0 = denied) and the state after the script:
on denial nothing is written; on success `HMSET` stores the spent token
count and `last = now`. The `EXPIRE key 3600` cleanup TTL has no modelled
effect. -/
def tokenBucketScript (capacity rate now : ℚ) (st : Option Bucket) :
    Int × Option Bucket :=
  let tokens := match st with | none => capacity | some b => b.tokens
  let last := match st with | none => now | some b => b.last
  let elapsed := now - last
  let tokens := min capacity (tokens + elapsed * rate)
  if tokens < 1 then (0, st)
  else (1, some ⟨tokens - 1, now⟩)

/-- Fault flag for the single Redis operation issued by `tokenBucketAllow`:
the atomic script `Run`, whose error the Go code checks. -/
structure TBFaults where
  runFails : Bool
deriving Repr, DecidableEq

def noTBFaults : TBFaults := ⟨false⟩

/-- Embeds `tokenBucketAllow` (main.go:161-171): runs the atomic script and
returns `result == 1`; if `Run` fails the Go code returns `(false, err)`
and nothing is written. -/
def tokenBucketAllow (f : TBFaults) (capacity rate now : ℚ)
    (st : Option Bucket) : GoResult (Option Bucket) :=
  if f.runFails then ⟨false, true, st⟩
  else
    let r := tokenBucketScript capacity rate now st
    ⟨decide (r.1 = 1), false, r.2⟩

/-- Decisions and final bucket of a sequence of `tokenBucketAllow` calls at
the given instants (Unix seconds, as ℚ). -/
def tokenBucketRun (f : TBFaults) (capacity rate : ℚ) :
    List ℚ → Option Bucket → List Bool × Option Bucket
  | [], st => ([], st)
  | t :: ts, st =>
    let r := tokenBucketAllow f capacity rate t st
    let rest := tokenBucketRun f capacity rate ts r.store
    (r.allowed :: rest.1, rest.2)

/-- The sequence of persisted bucket states visited by a run: the state
before the first call, then the state after each call. -/
def tokenBucketStates (f : TBFaults) (capacity rate : ℚ) :
    List ℚ → Option Bucket → List (Option Bucket)
  | [], st => [st]
  | t :: ts, st =>
    st ::
      tokenBucketStates f capacity rate ts
        (tokenBucketAllow f capacity rate t st).store

/-- Call instants spaced `gap` seconds apart starting at `t0`. -/
def spacedTimes (t0 gap : ℚ) (n : Nat) : List ℚ :=
  (List.range n).map (fun (i : Nat) => t0 + (i : ℚ) * gap)

/-! ### Helper stores for concrete sliding-counter scenarios -/

/-- Store for C6's first concrete scenario: 3 requests in the current window
(start 0), 12 in the previous window (start -60). -/
def scStore1 : Int → Int :=
  fun k => if k = 0 then 3 else if k = -60 then 12 else 0

/-- Store for C6's second concrete scenario: 9 requests in the current
window, 12 in the previous window. -/
def scStore2 : Int → Int :=
  fun k => if k = 0 then 9 else if k = -60 then 12 else 0

/-! ### C1 — error handling of Store failures -/

/-- C1 (amended): exactly the Store operations whose errors the Go code
checks fail closed. A failing `INCR` in `fixedWindowAllow`, a failing
`ZCard` in `slidingLogAllow`, and a failing script `Run` in
`tokenBucketAllow` each make the call return `allowed = false` with a
non-nil error and leave the state unchanged (for fixed window regardless of
whether the `Expire` call also fails). The errors of every other operation
are discarded by the code, so those failures do not force a denial (see the
counterexample). -/
theorem c1_checked_store_errors_fail_closed :
    (∀ (e : Bool) (limit counter : Int),
      fixedWindowAllow ⟨true, e⟩ limit counter = ⟨false, true, counter⟩)
    ∧ (∀ (f : SLFaults), f.zcardFails = true →
        ∀ (limit winMs now : Int) (log : List Int),
          (slidingLogAllow f limit winMs now log).allowed = false
            ∧ (slidingLogAllow f limit winMs now log).errored = true)
    ∧ (∀ (capacity rate now : ℚ) (st : Option Bucket),
        tokenBucketAllow ⟨true⟩ capacity rate now st = ⟨false, true, st⟩) := by
  refine ⟨fun e limit counter => rfl, fun f hf limit winMs now log => ?_,
    fun capacity rate now st => rfl⟩
  simp [slidingLogAllow, hf]

/-- Witness for C1 at concrete inputs. -/
theorem c1_checked_store_errors_fail_closed_witness :
    fixedWindowAllow ⟨true, false⟩ 5 0 = ⟨false, true, 0⟩
      ∧ ((slidingLogAllow ⟨false, true, false, false⟩ 5 60000 0 []).allowed
            = false
          ∧ (slidingLogAllow ⟨false, true, false, false⟩ 5 60000 0
              []).errored = true)
      ∧ tokenBucketAllow ⟨true⟩ 5 1 0 none = ⟨false, true, none⟩ :=
  ⟨c1_checked_store_errors_fail_closed.1 false 5 0,
    c1_checked_store_errors_fail_closed.2.1 ⟨false, true, false, false⟩ rfl
      5 60000 0 [],
    c1_checked_store_errors_fail_closed.2.2 5 1 0 none⟩

/-- Counterexample to C1 as stated: both `GET`s of `slidingCounterAllow`
fail (their errors are discarded and the counts read as 0), the true stored
count is 100 ≥ limit = 10, yet the call returns `allowed = true`. -/
theorem c1_ignored_store_error_still_allows :
    (slidingCounterAllow ⟨true, true, false, false⟩ 10 60000000000
        30000000000 (fun _ => 100)).map Prod.fst = some true := by
  have h1 : Int.tdiv 60000000000 1000000000 = 60 := by decide
  simp [slidingCounterAllow, goTruncateUnix, unixEpochOffset, h1]
  norm_num

/-- The no-fault execution of `slidingLogAllow`, with the lets resolved. -/
theorem slidingLogAllow_nf (limit winMs now : Int) (log : List Int) :
    slidingLogAllow noSLFaults limit winMs now log
      = (if limit ≤
            ((log.filter
              (fun s => decide (¬ (0 ≤ s ∧ s ≤ now - winMs)))).length : Int)
          then ⟨false, false,
            log.filter (fun s => decide (¬ (0 ≤ s ∧ s ≤ now - winMs)))⟩
          else ⟨true, false,
            if now ∈ log.filter (fun s => decide (¬ (0 ≤ s ∧ s ≤ now - winMs)))
              then log.filter (fun s => decide (¬ (0 ≤ s ∧ s ≤ now - winMs)))
              else log.filter (fun s => decide (¬ (0 ≤ s ∧ s ≤ now - winMs)))
                ++ [now]⟩) := rfl

/-- The fraction-into-window quantity computed by `slidingCounterAllow`:
`now.Unix() % int64(window.Seconds())` divided by `window.Seconds()`. -/
def scPercent (winNanos nowNanos : Int) : ℚ :=
  ((nowNanos.fdiv 1000000000).tmod (winNanos.tdiv 1000000000) : ℚ)
    / ((winNanos : ℚ) / 1000000000)

/-- The weighted estimate computed by `slidingCounterAllow` from the two
counters the call reads. -/
def scEstimate (winNanos nowNanos : Int) (store : Int → Int) : ℚ :=
  (store (goTruncateUnix (nowNanos - winNanos) winNanos) : ℚ)
      * (1 - scPercent winNanos nowNanos)
    + (store (goTruncateUnix nowNanos winNanos) : ℚ)

/-- The no-fault execution of `slidingCounterAllow`, with the lets resolved
into `scPercent`/`scEstimate`. -/
theorem slidingCounterAllow_nf (limit winNanos nowNanos : Int)
    (store : Int → Int) :
    slidingCounterAllow noSCFaults limit winNanos nowNanos store
      = (if winNanos.tdiv 1000000000 = 0 then none
          else if (limit : ℚ) ≤ scEstimate winNanos nowNanos store
            then some (false, store)
            else some (true, fun k =>
              if k = goTruncateUnix nowNanos winNanos then store k + 1
              else store k)) := rfl

/-- Case analysis of one atomic token-bucket script execution: either the
call is denied and the state is unchanged, or it is admitted and the
persisted record holds between 0 and `capacity` tokens with `last = now`. -/
theorem tokenBucketScript_cases (capacity rate now : ℚ) (st : Option Bucket) :
    tokenBucketScript capacity rate now st = (0, st) ∨
      ∃ tk, tokenBucketScript capacity rate now st = (1, some ⟨tk, now⟩)
        ∧ 0 ≤ tk ∧ tk ≤ capacity := by
  simp only [tokenBucketScript]
  split_ifs with h
  · left
    rfl
  · right
    refine ⟨_, rfl, ?_, ?_⟩
    · linarith [not_lt.mp h]
    · exact sub_le_iff_le_add.mpr
        (le_trans (min_le_left _ _) (by linarith))

/-! ### C2 — effect of a denied call on the store -/

/-- C2 (amended): a denied `slidingCounterAllow` or `tokenBucketAllow` call
leaves the store unchanged; a denied `slidingLogAllow` call performs only
the trim of members with score in `[0, now - window]` and records no
timestamp; but a denied `fixedWindowAllow` call has already incremented its
counter (the `INCR` precedes the decision), so the fixed-window counter is
mutated even on denial. -/
theorem c2_denied_call_mutation :
    (∀ (limit winMs now : Int) (log : List Int),
      (slidingLogAllow noSLFaults limit winMs now log).allowed = false →
        (slidingLogAllow noSLFaults limit winMs now log).store
          = log.filter (fun s => decide (¬ (0 ≤ s ∧ s ≤ now - winMs))))
    ∧ (∀ (limit winNanos nowNanos : Int) (store store' : Int → Int),
        slidingCounterAllow noSCFaults limit winNanos nowNanos store
            = some (false, store') → store' = store)
    ∧ (∀ (capacity rate now : ℚ) (st : Option Bucket),
        (tokenBucketAllow noTBFaults capacity rate now st).allowed = false →
          (tokenBucketAllow noTBFaults capacity rate now st).store = st)
    ∧ (∀ (limit counter : Int),
        (fixedWindowAllow noFWFaults limit counter).allowed = false →
          (fixedWindowAllow noFWFaults limit counter).store = counter + 1) := by
  refine ⟨fun limit winMs now log h => ?_,
    fun limit winNanos nowNanos store store' h => ?_,
    fun capacity rate now st h => ?_, fun limit counter _ => rfl⟩
  · rw [slidingLogAllow_nf] at h ⊢
    split_ifs at h ⊢ with hc
    · rfl
  · rw [slidingCounterAllow_nf] at h
    split_ifs at h with h0 hc
    · simp only [Option.some.injEq, Prod.mk.injEq] at h
      exact h.2.symm
    · simp only [Option.some.injEq, Prod.mk.injEq] at h
      exact absurd h.1 (by decide)
  · rcases tokenBucketScript_cases capacity rate now st with hc | ⟨tk, hc, -, -⟩
    · simp [tokenBucketAllow, noTBFaults, hc]
    · simp [tokenBucketAllow, noTBFaults, hc] at h

/-- Witness for C2 at concrete denied calls. -/
theorem c2_denied_call_mutation_witness :
    (slidingLogAllow noSLFaults 0 60000 70000 [5000, 20000]).store
        = [5000, 20000].filter
            (fun s => decide (¬ (0 ≤ s ∧ s ≤ 70000 - 60000)))
      ∧ (tokenBucketAllow noTBFaults 5 1 0 (some ⟨0, 0⟩)).store
          = some ⟨0, 0⟩
      ∧ (fixedWindowAllow noFWFaults 5 5).store = 5 + 1 := by
  refine ⟨c2_denied_call_mutation.1 0 60000 70000 [5000, 20000] (by decide),
    c2_denied_call_mutation.2.2.1 5 1 0 (some ⟨0, 0⟩) ?_,
    c2_denied_call_mutation.2.2.2 5 5 (by decide)⟩
  simp [tokenBucketAllow, tokenBucketScript, noTBFaults]

/-- Counterexample to C2 as stated: with `limit = 5` and the counter already
at 5, `fixedWindowAllow` is denied yet increments the persisted counter from
5 to 6 — a denial that mutates state observable by subsequent calls, outside
the token-bucket exception of §4.5 step 4. -/
theorem c2_fixed_window_denial_increments :
    fixedWindowAllow noFWFaults 5 5 = ⟨false, false, 6⟩ ∧ (6 : Int) ≠ 5 := by
  decide

/-! ### C4 — token bucket burst -/

/-- C4: with capacity 5, refill rate 1 token/s and an absent (full) bucket,
five calls at instant 0 are all admitted, the sixth at the same instant is
denied, and of two further calls at instant 1 (after waiting 1 s) exactly
the first is admitted. -/
theorem c4_token_bucket_burst :
    (tokenBucketRun noTBFaults 5 1 [0, 0, 0, 0, 0, 0, 1, 1] none).1
      = [true, true, true, true, true, false, true, false] := by
  simp [tokenBucketRun, tokenBucketAllow, tokenBucketScript, noTBFaults]
  norm_num

/-! ### C7 — negative elapsed time in the token-bucket script -/

/-- C7 (code evaluated at the failing input): the Lua script does not clamp
a negative elapsed time. With capacity 5, rate 1, stored
`{tokens = 5, last = 10}` and a call at `now = 8`, the negative elapsed
`-2` is applied as a negative refill: the call is admitted, the persisted
tokens drop from 5 to 2 (instead of the 4 that a clamped spend would
leave), and `last` moves backward to 8. A second evaluation shows stored
tokens 2 with `last = 4` being denied at `now = 0` because the negative
refill pushes the balance to `-2 < 1`. -/
theorem c7_negative_elapsed_not_clamped :
    tokenBucketScript 5 1 8 (some ⟨5, 10⟩) = (1, some ⟨2, 8⟩)
      ∧ tokenBucketScript 5 1 0 (some ⟨2, 4⟩) = (0, some ⟨2, 4⟩) := by
  constructor
  · simp [tokenBucketScript]
    norm_num
  · simp [tokenBucketScript]
    norm_num

/-! ### C5 — fixed window monotonicity -/

/-- Decision sequence of an uninterrupted fixed-window run starting from any
counter value: the i-th call (0-based) sees the counter at `c + i` and is
admitted iff `c + i + 1 ≤ limit`. -/
theorem fixedWindowRun_decisions (limit : Int) :
    ∀ (n : Nat) (c : Int),
      (fixedWindowRun noFWFaults limit n c).1
        = (List.range n).map (fun (i : Nat) => decide (c + (i : Int) + 1 ≤ limit))
  | 0, _ => rfl
  | n + 1, c => by
    have ih := fixedWindowRun_decisions limit n (c + 1)
    show decide (c + 1 ≤ limit)
        :: (fixedWindowRun noFWFaults limit n (c + 1)).1 = _
    rw [ih, List.range_succ_eq_map, List.map_cons, List.map_map]
    refine congrArg₂ List.cons ?_ (List.map_congr_left fun i _ => ?_)
    · norm_num
    · simp only [Function.comp_apply]
      have : c + 1 + (i : Int) + 1 = c + ((i.succ : Nat) : Int) + 1 := by
        push_cast
        ring
      rw [this]

/-- C5: starting from an absent counter, within one uninterrupted window the
k-th call (1-based index `k + 1` below) of `fixedWindowAllow` returns
`allowed = true` exactly when its sequence number is at most the limit: the
first `L` calls are admitted and every later call in the window is
denied. -/
theorem c5_fixed_window_monotonicity (L : Int) (hL : 0 < L) (n k : Nat)
    (hk : k < n) :
    ((fixedWindowRun noFWFaults L n 0).1)[k]? = some true
      ↔ (k : Int) + 1 ≤ L := by
  rw [fixedWindowRun_decisions, List.getElem?_map, List.getElem?_range hk]
  simp

/-- Witness for C5: with limit 5 and 7 calls, call 5 (index 4) is admitted
and call 7 (index 6) is denied. -/
theorem c5_fixed_window_monotonicity_witness :
    (((fixedWindowRun noFWFaults 5 7 0).1)[4]? = some true
        ↔ (4 : Int) + 1 ≤ 5)
      ∧ (((fixedWindowRun noFWFaults 5 7 0).1)[6]? = some true
        ↔ (6 : Int) + 1 ≤ 5) :=
  ⟨c5_fixed_window_monotonicity 5 (by decide) 7 4 (by decide),
    c5_fixed_window_monotonicity 5 (by decide) 7 6 (by decide)⟩

/-! ### C6 — sliding counter weighted estimate -/

/-- C6: `slidingCounterAllow` denies exactly when
`previousCount * (1 - frac) + currentCount ≥ limit`, where the counts are
the values read at the previous/current window keys and
`frac = (now.Unix() mod winSec) / winSec` is the fraction of the current
(epoch-aligned) window elapsed; stated for whole-second windows and
non-negative instants, where the code's truncated `mod` agrees with the
mathematical one. Concretely, with limit 10 at 50% into a 60 s window,
`previousCount = 12, currentCount = 3` (estimate 9) is admitted and
`previousCount = 12, currentCount = 9` (estimate 15) is denied. -/
theorem c6_sliding_counter_estimate :
    (∀ (limit winSec nowNanos : Int) (store : Int → Int),
      0 < winSec → 0 ≤ nowNanos →
      (slidingCounterAllow noSCFaults limit (winSec * 1000000000) nowNanos
          store).map Prod.fst
        = some (!decide ((limit : ℚ) ≤
            (store (goTruncateUnix (nowNanos - winSec * 1000000000)
                (winSec * 1000000000)) : ℚ)
              * (1 - (((nowNanos.fdiv 1000000000) % winSec : Int) : ℚ) / (winSec : ℚ))
            + (store (goTruncateUnix nowNanos (winSec * 1000000000)) : ℚ))))
    ∧ (slidingCounterAllow noSCFaults 10 60000000000 30000000000
        scStore1).map Prod.fst = some true
    ∧ (slidingCounterAllow noSCFaults 10 60000000000 30000000000
        scStore2).map Prod.fst = some false := by
  refine ⟨fun limit winSec nowNanos store hw hn => ?_, ?_, ?_⟩
  · rw [slidingCounterAllow_nf]
    have ht : (winSec * 1000000000).tdiv 1000000000 = winSec :=
      Int.mul_tdiv_cancel _ (by norm_num)
    have htm : (nowNanos.fdiv 1000000000).tmod winSec
        = (nowNanos.fdiv 1000000000) % winSec :=
      Int.tmod_eq_emod (Int.fdiv_nonneg hn (by norm_num)) (le_of_lt hw)
    have hdiv : ((winSec * 1000000000 : Int) : ℚ) / 1000000000
        = (winSec : ℚ) := by
      push_cast
      ring
    rw [if_neg (by omega)]
    simp only [scEstimate, scPercent, ht, htm, hdiv]
    split_ifs with hc
    · simp [hc]
    · simp [hc]
  · have h1 : Int.tdiv 60000000000 1000000000 = 60 := by decide
    have h3 : Int.tmod 30 60 = 30 := by decide
    simp [slidingCounterAllow, goTruncateUnix, unixEpochOffset, noSCFaults,
      scStore1, h1, h3]
    norm_num
  · have h1 : Int.tdiv 60000000000 1000000000 = 60 := by decide
    have h3 : Int.tmod 30 60 = 30 := by decide
    simp [slidingCounterAllow, goTruncateUnix, unixEpochOffset, noSCFaults,
      scStore2, h1, h3]
    norm_num

/-- Witness for C6's general part at the first concrete scenario. -/
theorem c6_sliding_counter_estimate_witness :
    (slidingCounterAllow noSCFaults 10 (60 * 1000000000) 30000000000
        scStore1).map Prod.fst
      = some (!decide ((10 : ℚ) ≤
          (scStore1 (goTruncateUnix (30000000000 - 60 * 1000000000)
              (60 * 1000000000)) : ℚ)
            * (1 - (((Int.fdiv 30000000000 1000000000) % 60 : Int) : ℚ) / (60 : ℚ))
          + (scStore1 (goTruncateUnix 30000000000 (60 * 1000000000)) : ℚ))) :=
  c6_sliding_counter_estimate.1 10 60 30000000000 scStore1 (by decide)
    (by decide)

/-! ### C10 — totality of the fraction computation -/

/-- C10 (amended): for a window of at least one second the divisor
`int64(window.Seconds())` is at least 1 — in particular nonzero — and
`slidingCounterAllow` is total (returns a value, no division by zero), for
every fault pattern, limit, instant and store. For positive sub-second
windows the divisor truncates to 0 and the modulo divides by zero (see the
counterexample). -/
theorem c10_second_windows_total (f : SCFaults) (limit winNanos nowNanos : Int)
    (store : Int → Int) (hw : 1000000000 ≤ winNanos) :
    1 ≤ winNanos.tdiv 1000000000
      ∧ (slidingCounterAllow f limit winNanos nowNanos store).isSome := by
  have h1 : 1 ≤ winNanos.tdiv 1000000000 := by
    rw [Int.tdiv_eq_ediv (by linarith) (by norm_num)]
    have h2 := Int.ediv_le_ediv (by norm_num : (0 : Int) < 1000000000) hw
    rwa [show (1000000000 : Int) / 1000000000 = 1 from by decide] at h2
  refine ⟨h1, ?_⟩
  simp only [slidingCounterAllow]
  rw [if_neg (by omega)]
  split_ifs <;> rfl

/-- Witness for C10 at a 60 s window. -/
theorem c10_second_windows_total_witness :
    1 ≤ Int.tdiv 60000000000 1000000000
      ∧ (slidingCounterAllow noSCFaults 10 60000000000 30000000000
          (fun _ => 0)).isSome :=
  c10_second_windows_total noSCFaults 10 60000000000 30000000000 (fun _ => 0)
    (by decide)

/-- Counterexample to C10 as stated: a positive window of 500 ms truncates
to a zero divisor (`int64(window.Seconds()) = 0`), and the call is the Go
runtime panic of `%` by zero rather than a total operation. -/
theorem c10_subsecond_window_divides_by_zero :
    (0 : Int) < 500000000
      ∧ Int.tdiv 500000000 1000000000 = 0
      ∧ slidingCounterAllow noSCFaults 10 500000000 0 (fun _ => 0) = none := by
  refine ⟨by decide, by decide, ?_⟩
  rw [slidingCounterAllow_nf, if_pos (by decide : Int.tdiv 500000000 1000000000 = 0)]

/-! ### C9 — token bucket steady state -/

/-- Splitting off the first of a sequence of evenly spaced instants. -/
theorem spacedTimes_succ (t0 gap : ℚ) (n : Nat) :
    spacedTimes t0 gap (n + 1) = t0 :: spacedTimes (t0 + gap) gap n := by
  unfold spacedTimes
  rw [List.range_succ_eq_map, List.map_cons, List.map_map]
  refine congrArg₂ List.cons (by norm_num) (List.map_congr_left fun i _ => ?_)
  simp only [Function.comp_apply]
  push_cast
  ring

/-- The no-fault execution of `tokenBucketAllow` in terms of the script. -/
theorem tokenBucketAllow_nf (capacity rate now : ℚ) (st : Option Bucket) :
    tokenBucketAllow noTBFaults capacity rate now st
      = ⟨decide ((tokenBucketScript capacity rate now st).1 = 1), false,
          (tokenBucketScript capacity rate now st).2⟩ := rfl

/-- One steady-state step: a bucket left at `capacity - 1` tokens by a call
`1/rate` seconds ago refills to exactly `capacity`, so the next call is
admitted and again leaves `capacity - 1` tokens. -/
theorem tokenBucketScript_steady (capacity rate t : ℚ) (hc : 1 ≤ capacity)
    (hr : rate ≠ 0) :
    tokenBucketScript capacity rate t (some ⟨capacity - 1, t - 1 / rate⟩)
      = (1, some ⟨capacity - 1, t⟩) := by
  simp only [tokenBucketScript]
  have he : capacity - 1 + (t - (t - 1 / rate)) * rate = capacity := by
    field_simp
  rw [he, min_self, if_neg (by linarith)]

/-- Steady-state run: if the previous call was `1/rate` seconds before `t0`
and left `capacity - 1` tokens, every subsequent call spaced `1/rate`
seconds apart is admitted. -/
theorem tokenBucketRun_steady (capacity rate : ℚ) (hc : 1 ≤ capacity)
    (hr : rate ≠ 0) :
    ∀ (n : Nat) (t0 : ℚ),
      (tokenBucketRun noTBFaults capacity rate (spacedTimes t0 (1 / rate) n)
        (some ⟨capacity - 1, t0 - 1 / rate⟩)).1 = List.replicate n true
  | 0, _ => rfl
  | n + 1, t0 => by
    rw [spacedTimes_succ, List.replicate_succ]
    have hst : tokenBucketAllow noTBFaults capacity rate t0
        (some ⟨capacity - 1, t0 - 1 / rate⟩)
          = ⟨true, false, some ⟨capacity - 1, t0⟩⟩ := by
      rw [tokenBucketAllow_nf, tokenBucketScript_steady capacity rate t0 hc hr]
      rfl
    show (tokenBucketAllow noTBFaults capacity rate t0
          (some ⟨capacity - 1, t0 - 1 / rate⟩)).allowed
        :: (tokenBucketRun noTBFaults capacity rate
            (spacedTimes (t0 + 1 / rate) (1 / rate) n)
            (tokenBucketAllow noTBFaults capacity rate t0
              (some ⟨capacity - 1, t0 - 1 / rate⟩)).store).1
      = true :: List.replicate n true
    rw [hst]
    refine congrArg₂ List.cons rfl ?_
    rw [show (⟨capacity - 1, t0⟩ : Bucket)
        = ⟨capacity - 1, (t0 + 1 / rate) - 1 / rate⟩ from by
      rw [Bucket.mk.injEq]
      norm_num]
    exact tokenBucketRun_steady capacity rate hc hr n (t0 + 1 / rate)

/-- C9 (amended, capacity at least 1): starting from an absent (full)
bucket, calls spaced exactly `1/rate` seconds apart are all admitted, for
any number of calls: each gap refills the one token the previous call
spent. For positive capacities below 1 the very first call is already
denied (see the counterexample). -/
theorem c9_steady_state_admits (capacity rate t0 : ℚ) (n : Nat)
    (hc : 1 ≤ capacity) (hr : rate ≠ 0) :
    (tokenBucketRun noTBFaults capacity rate (spacedTimes t0 (1 / rate) n)
      none).1 = List.replicate n true := by
  cases n with
  | zero => rfl
  | succ n =>
    rw [spacedTimes_succ, List.replicate_succ]
    have hfresh : tokenBucketScript capacity rate t0 none
        = (1, some ⟨capacity - 1, t0⟩) := by
      simp only [tokenBucketScript, sub_self, zero_mul, add_zero, min_self]
      rw [if_neg (by linarith)]
    have hst : tokenBucketAllow noTBFaults capacity rate t0 none
        = ⟨true, false, some ⟨capacity - 1, t0⟩⟩ := by
      rw [tokenBucketAllow_nf, hfresh]
      rfl
    show (tokenBucketAllow noTBFaults capacity rate t0 none).allowed
        :: (tokenBucketRun noTBFaults capacity rate
            (spacedTimes (t0 + 1 / rate) (1 / rate) n)
            (tokenBucketAllow noTBFaults capacity rate t0 none).store).1
      = true :: List.replicate n true
    rw [hst]
    refine congrArg₂ List.cons rfl ?_
    rw [show (⟨capacity - 1, t0⟩ : Bucket)
        = ⟨capacity - 1, (t0 + 1 / rate) - 1 / rate⟩ from by
      rw [Bucket.mk.injEq]
      norm_num]
    exact tokenBucketRun_steady capacity rate hc hr n (t0 + 1 / rate)

/-- Witness for C9 at capacity 5, rate 1, three calls one second apart. -/
theorem c9_steady_state_admits_witness :
    (tokenBucketRun noTBFaults 5 1 (spacedTimes 0 (1 / 1) 3) none).1
      = List.replicate 3 true :=
  c9_steady_state_admits 5 1 0 3 (by norm_num) (by norm_num)

/-- Counterexample to C9 as stated: with the positive capacity 1/2 and rate
1, the bucket starts full at 1/2 tokens, which is below the cost of a
single request, so already the first of the spaced calls is denied rather
than all being admitted indefinitely. -/
theorem c9_capacity_below_one_denied :
    (0 : ℚ) < 1 / 2
      ∧ (tokenBucketRun noTBFaults (1 / 2) 1 (spacedTimes 0 (1 / 1) 1)
          none).1 = [false] := by
  constructor
  · norm_num
  · simp [tokenBucketRun, tokenBucketAllow, tokenBucketScript, noTBFaults,
      spacedTimes]
    norm_num

/-! ### C8 — token bucket state invariants -/

/-- The persisted state after one no-fault token-bucket call: unchanged on
denial, or a record with `0 ≤ tokens ≤ capacity` and `last = now` on
admission. -/
theorem tokenBucketStep_store (capacity rate t : ℚ) (st : Option Bucket) :
    (tokenBucketAllow noTBFaults capacity rate t st).store = st ∨
      ∃ tk, (tokenBucketAllow noTBFaults capacity rate t st).store
          = some ⟨tk, t⟩ ∧ 0 ≤ tk ∧ tk ≤ capacity := by
  rcases tokenBucketScript_cases capacity rate t st with h | ⟨tk, h, h0, h1⟩
  · left
    rw [tokenBucketAllow_nf, h]
  · right
    exact ⟨tk, by rw [tokenBucketAllow_nf, h], h0, h1⟩

/-- A run of states always begins with the initial state. -/
theorem tokenBucketStates_eq_cons (capacity rate : ℚ) (ts : List ℚ)
    (st : Option Bucket) :
    ∃ l, tokenBucketStates noTBFaults capacity rate ts st = st :: l := by
  cases ts
  · exact ⟨[], rfl⟩
  · exact ⟨_, rfl⟩

/-- Unfolding one call of a run of states. -/
theorem tokenBucketStates_cons (capacity rate t : ℚ) (ts : List ℚ)
    (st : Option Bucket) :
    tokenBucketStates noTBFaults capacity rate (t :: ts) st
      = st :: tokenBucketStates noTBFaults capacity rate ts
          (tokenBucketAllow noTBFaults capacity rate t st).store := rfl

/-- Invariant preservation along a run of token-bucket calls with
non-decreasing instants: every persisted record keeps
`0 ≤ tokens ≤ capacity`, and the recorded `last` values are
non-decreasing. -/
theorem tokenBucketStates_inv (capacity rate : ℚ) :
    ∀ (ts : List ℚ) (st : Option Bucket),
      ts.Chain' (· ≤ ·) →
      (∀ b, st = some b → 0 ≤ b.tokens ∧ b.tokens ≤ capacity) →
      (∀ b, st = some b → ∀ t ∈ ts, b.last ≤ t) →
      (∀ s ∈ tokenBucketStates noTBFaults capacity rate ts st,
          ∀ b, s = some b → 0 ≤ b.tokens ∧ b.tokens ≤ capacity)
        ∧ (((tokenBucketStates noTBFaults capacity rate ts st).filterMap
            id).map Bucket.last).Chain' (· ≤ ·)
  | [], st, _, hbound, _ => by
    constructor
    · intro s hs b hb
      have hss : s = st := by
        simpa [tokenBucketStates] using hs
      exact hbound b (hss ▸ hb)
    · cases st <;> simp [tokenBucketStates]
  | t :: ts, st, hchain, hbound, hlast => by
    have hpw := List.chain'_iff_pairwise.mp hchain
    rw [List.pairwise_cons] at hpw
    have hchain' : ts.Chain' (· ≤ ·) := List.chain'_iff_pairwise.mpr hpw.2
    have hbound' : ∀ b,
        (tokenBucketAllow noTBFaults capacity rate t st).store = some b →
          0 ≤ b.tokens ∧ b.tokens ≤ capacity := by
      rcases tokenBucketStep_store capacity rate t st with hstep
        | ⟨tk, hstep, htk0, htk1⟩
      · rw [hstep]
        exact hbound
      · rw [hstep]
        intro b hb
        obtain rfl : (⟨tk, t⟩ : Bucket) = b := Option.some.inj hb
        exact ⟨htk0, htk1⟩
    have hlast' : ∀ b,
        (tokenBucketAllow noTBFaults capacity rate t st).store = some b →
          ∀ u ∈ ts, b.last ≤ u := by
      rcases tokenBucketStep_store capacity rate t st with hstep
        | ⟨tk, hstep, -, -⟩
      · rw [hstep]
        intro b hb u hu
        exact hlast b hb u (List.mem_cons_of_mem _ hu)
      · rw [hstep]
        intro b hb u hu
        obtain rfl : (⟨tk, t⟩ : Bucket) = b := Option.some.inj hb
        exact hpw.1 u hu
    have ih := tokenBucketStates_inv capacity rate ts
      (tokenBucketAllow noTBFaults capacity rate t st).store hchain' hbound'
      hlast'
    constructor
    · intro s hs b hb
      rw [tokenBucketStates_cons, List.mem_cons] at hs
      rcases hs with h | h
      · exact hbound b (h ▸ hb)
      · exact ih.1 s h b hb
    · cases st with
      | none =>
        rw [tokenBucketStates_cons, List.filterMap_cons_none rfl]
        exact ih.2
      | some b =>
        rw [tokenBucketStates_cons]
        obtain ⟨l, hl⟩ := tokenBucketStates_eq_cons capacity rate ts
          (tokenBucketAllow noTBFaults capacity rate t (some b)).store
        obtain ⟨b2, hb2, hble⟩ : ∃ b2,
            (tokenBucketAllow noTBFaults capacity rate t (some b)).store
                = some b2 ∧ b.last ≤ b2.last := by
          rcases tokenBucketStep_store capacity rate t (some b) with hstep
            | ⟨tk, hstep, -, -⟩
          · exact ⟨b, hstep, le_refl _⟩
          · exact ⟨⟨tk, t⟩, hstep, hlast b rfl t (List.mem_cons_self _ _)⟩
        have h2 := ih.2
        rw [hl, hb2] at h2
        rw [hl, hb2]
        show List.Chain' (· ≤ ·)
          (b.last :: b2.last :: (l.filterMap id).map Bucket.last)
        rw [List.chain'_cons]
        exact ⟨hble, h2⟩

/-- C8: along any sequence of no-fault token-bucket calls on one key with
non-decreasing instants and positive capacity and rate, every persisted
bucket state satisfies `0 ≤ tokens ≤ capacity`, and the persisted
`lastRefillTime` values are monotonically non-decreasing. -/
theorem c8_token_bucket_invariants (capacity rate : ℚ) (ts : List ℚ)
    (hc : 0 < capacity) (hr : 0 < rate) (hts : ts.Chain' (· ≤ ·)) :
    (∀ s ∈ tokenBucketStates noTBFaults capacity rate ts none,
        ∀ b, s = some b → 0 ≤ b.tokens ∧ b.tokens ≤ capacity)
      ∧ (((tokenBucketStates noTBFaults capacity rate ts none).filterMap
          id).map Bucket.last).Chain' (· ≤ ·) :=
  tokenBucketStates_inv capacity rate ts none hts
    (fun b hb => by simp at hb) (fun b hb => by simp at hb)

/-- Witness for C8 for three calls at instants 0, 0, 1. -/
theorem c8_token_bucket_invariants_witness :
    (∀ s ∈ tokenBucketStates noTBFaults 5 1 [0, 0, 1] none,
        ∀ b, s = some b → 0 ≤ b.tokens ∧ b.tokens ≤ 5)
      ∧ (((tokenBucketStates noTBFaults 5 1 [0, 0, 1] none).filterMap
          id).map Bucket.last).Chain' (· ≤ ·) :=
  c8_token_bucket_invariants 5 1 [0, 0, 1] (by norm_num) (by norm_num)
    (by norm_num [List.chain'_cons, List.chain'_singleton])

/-! ### C3 — sliding log exactness -/

/-- Refinement of the sliding-log code by the half-open-window counting
specification: provided the call timestamps are strictly increasing and
non-negative, the log the code keeps (the admitted timestamps newer than
the last trim cutoff) produces exactly the decisions of the half-open
specification. The parameters `adm` (all admitted timestamps so far) and
`cutoff` (the last trim bound) generalize the induction. -/
theorem slidingLogRun_spec (limit winMs : Int) (hw : 0 < winMs) :
    ∀ (ts adm log : List Int) (cutoff : Int),
      log = adm.filter (fun s => decide (cutoff < s)) →
      (∀ s ∈ adm, 0 ≤ s) →
      (∀ s ∈ adm, ∀ u ∈ ts, s < u) →
      (∀ u ∈ ts, cutoff ≤ u - winMs) →
      (∀ u ∈ ts, 0 ≤ u) →
      ts.Chain' (· < ·) →
      (slidingLogRun noSLFaults limit winMs ts log).1
        = slidingLogSpecHalfOpen limit winMs ts adm
  | [], _, _, _, _, _, _, _, _, _ => rfl
  | t :: ts, adm, log, cutoff, hlog, hpos, hbefore, hcut, hts0, hchain => by
    have hpw := List.chain'_iff_pairwise.mp hchain
    rw [List.pairwise_cons] at hpw
    have hchain' : ts.Chain' (· < ·) := List.chain'_iff_pairwise.mpr hpw.2
    have hlog1 : log.filter (fun s => decide (¬ (0 ≤ s ∧ s ≤ t - winMs)))
        = adm.filter (fun s => decide (t - winMs < s)) := by
      rw [hlog, List.filter_filter]
      apply List.filter_congr
      intro s hs
      have h0s : 0 ≤ s := hpos s hs
      rcases lt_or_le (t - winMs) s with hcase | hcase
      · have hc1 : cutoff < s :=
          lt_of_le_of_lt (hcut t (List.mem_cons_self _ _)) hcase
        simp [hcase, hc1, not_le.mpr hcase]
      · simp [h0s, hcase, not_lt.mpr hcase]
    have hfeq : adm.filter (fun s => decide (t - winMs < s ∧ s ≤ t))
        = adm.filter (fun s => decide (t - winMs < s)) := by
      apply List.filter_congr
      intro s hs
      have hst : s < t := hbefore s hs t (List.mem_cons_self _ _)
      simp [le_of_lt hst]
    have hcut' : ∀ u ∈ ts, t - winMs ≤ u - winMs := fun u hu =>
      sub_le_sub_right (le_of_lt (hpw.1 u hu)) winMs
    have hts0' : ∀ u ∈ ts, 0 ≤ u := fun u hu =>
      hts0 u (List.mem_cons_of_mem _ hu)
    show (slidingLogAllow noSLFaults limit winMs t log).allowed
        :: (slidingLogRun noSLFaults limit winMs ts
            (slidingLogAllow noSLFaults limit winMs t log).store).1
      = decide (((adm.filter
            (fun s => decide (t - winMs < s ∧ s ≤ t))).length : Int) < limit)
        :: slidingLogSpecHalfOpen limit winMs ts
            (if decide (((adm.filter
                (fun s => decide (t - winMs < s ∧ s ≤ t))).length : Int)
                  < limit)
              then adm ++ [t] else adm)
    rw [slidingLogAllow_nf, hlog1, hfeq]
    rcases lt_or_le
        ((adm.filter (fun s => decide (t - winMs < s))).length : Int) limit
      with hd | hd
    · rw [if_neg (not_le.mpr hd), decide_eq_true hd, if_pos rfl]
      have htnot : t ∉ adm.filter (fun s => decide (t - winMs < s)) :=
        fun hmem =>
          absurd (hbefore t (List.mem_of_mem_filter hmem) t
            (List.mem_cons_self _ _)) (lt_irrefl t)
      rw [if_neg htnot]
      have hlog2 : adm.filter (fun s => decide (t - winMs < s)) ++ [t]
          = (adm ++ [t]).filter (fun s => decide (t - winMs < s)) := by
        rw [List.filter_append]
        congr 1
        simp [sub_lt_self t hw]
      refine congrArg₂ List.cons rfl ?_
      show (slidingLogRun noSLFaults limit winMs ts
          (adm.filter (fun s => decide (t - winMs < s)) ++ [t])).1
        = slidingLogSpecHalfOpen limit winMs ts (adm ++ [t])
      rw [hlog2]
      refine slidingLogRun_spec limit winMs hw ts (adm ++ [t]) _ (t - winMs)
        rfl ?_ ?_ hcut' hts0' hchain'
      · intro s hs
        rcases List.mem_append.mp hs with h | h
        · exact hpos s h
        · rw [List.mem_singleton.mp h]
          exact hts0 t (List.mem_cons_self _ _)
      · intro s hs u hu
        rcases List.mem_append.mp hs with h | h
        · exact hbefore s h u (List.mem_cons_of_mem _ hu)
        · rw [List.mem_singleton.mp h]
          exact hpw.1 u hu
    · rw [if_pos hd, decide_eq_false (not_lt.mpr hd),
        if_neg Bool.false_ne_true]
      refine congrArg₂ List.cons rfl ?_
      refine slidingLogRun_spec limit winMs hw ts adm _ (t - winMs) rfl hpos
        ?_ hcut' hts0' hchain'
      intro s hs u hu
      exact hbefore s hs u (List.mem_cons_of_mem _ hu)

/-- C3 (amended window half-open on the left): in sequential execution with
strictly increasing, non-negative timestamps, the decision of each
`slidingLogAllow` call at time `t` is exactly
`(count of prior admitted timestamps within (t - window, t]) < limit` — the
trim removes a timestamp lying exactly at `t - window`, so the left end is
excluded. The claim's concrete sequence holds: with limit 5 and a 60 s
window, calls at 10, 15, 20, 25, 30 s are admitted, 35 s is denied, and
70 s is admitted. -/
theorem c3_sliding_log_exactness (limit winMs : Int) (ts : List Int)
    (hw : 0 < winMs) (hts : ts.Chain' (· < ·)) (hts0 : ∀ u ∈ ts, 0 ≤ u) :
    (slidingLogRun noSLFaults limit winMs ts []).1
      = slidingLogSpecHalfOpen limit winMs ts []
    ∧ (slidingLogRun noSLFaults 5 60000
        [10000, 15000, 20000, 25000, 30000, 35000, 70000] []).1
      = [true, true, true, true, true, false, true] := by
  refine ⟨?_, by decide⟩
  cases ts with
  | nil => rfl
  | cons t ts' =>
    have hpw := List.chain'_iff_pairwise.mp hts
    rw [List.pairwise_cons] at hpw
    refine slidingLogRun_spec limit winMs hw (t :: ts') [] [] (t - winMs)
      rfl (by simp) (by simp) ?_ hts0 hts
    intro u hu
    rcases List.mem_cons.mp hu with h | h
    · rw [h]
    · exact sub_le_sub_right (le_of_lt (hpw.1 u h)) winMs

/-- Witness for C3 at the claim's concrete sequence. -/
theorem c3_sliding_log_exactness_witness :
    (slidingLogRun noSLFaults 5 60000
        [10000, 15000, 20000, 25000, 30000, 35000, 70000] []).1
      = slidingLogSpecHalfOpen 5 60000
          [10000, 15000, 20000, 25000, 30000, 35000, 70000] [] :=
  (c3_sliding_log_exactness 5 60000
      [10000, 15000, 20000, 25000, 30000, 35000, 70000] (by decide)
      (by norm_num [List.chain'_cons, List.chain'_singleton]) (by decide)).1

/-- Counterexample to C3's general formula as stated (closed window
`[t - window, t]`): on the claim's own concrete sequence the closed-window
count at t = 70 s is 5 (the admitted timestamp at exactly 10 s = 70 s - 60 s
is still counted), so the formula predicts denial, while the code admits
the call — the code's trim drops the timestamp at exactly `t - window`. -/
theorem c3_closed_interval_formula_fails :
    slidingLogSpecClosed 5 60000
        [10000, 15000, 20000, 25000, 30000, 35000, 70000] []
      = [true, true, true, true, true, false, false]
    ∧ (slidingLogRun noSLFaults 5 60000
        [10000, 15000, 20000, 25000, 30000, 35000, 70000] []).1
      = [true, true, true, true, true, false, true]
    ∧ slidingLogSpecClosed 5 60000
        [10000, 15000, 20000, 25000, 30000, 35000, 70000] []
      ≠ (slidingLogRun noSLFaults 5 60000
          [10000, 15000, 20000, 25000, 30000, 35000, 70000] []).1 := by
  refine ⟨by decide, by decide, by decide⟩
